import Mathlib

/-
Verification of the dialogue orchestration, validation and transcript-store
logic of `src/main.py` (cooperative multi-model dialogue tests).

The Python source is shallowly embedded: the model adapters are abstracted
as an oracle `call : String → String → Except String (Option String)`
(client type and prompt in, either a returned payload or a raised
exception's message out), the SQLite table `model_dialogues` is a list of
rows, and the two test methods become pure functions from the oracle, a
clock, an initial store and a run name to the final store paired with an
optional validation failure (`none` = the test passed).
-/

/-- Restriction of Python's `str.isalpha` to the Basic Latin and Cyrillic
Unicode blocks, the only scripts the program's validation logic and these
proofs touch: ASCII letters, and the letters of the Cyrillic block
U+0400..U+04FF (everything in the block except U+0482, the thousands sign,
and the combining marks U+0483..U+0489). -/
def pyIsAlpha (c : Char) : Bool :=
  (0x41 ≤ c.toNat && c.toNat ≤ 0x5A) ||
  (0x61 ≤ c.toNat && c.toNat ≤ 0x7A) ||
  (0x400 ≤ c.toNat && c.toNat ≤ 0x481) ||
  (0x48A ≤ c.toNat && c.toNat ≤ 0x4FF)

/-- A character of the Unicode Cyrillic block U+0400..U+04FF that is a
letter (the block minus the thousands sign and the combining marks).
Used to state the spec's notion of "Cyrillic letter". -/
def isCyrillicLetter (c : Char) : Bool :=
  (0x400 ≤ c.toNat && c.toNat ≤ 0x481) ||
  (0x48A ≤ c.toNat && c.toNat ≤ 0x4FF)

/-- A character of the Unicode Cyrillic block U+0400..U+04FF.
Used to state the spec's notion of "Cyrillic character". -/
def isCyrillicChar (c : Char) : Bool :=
  0x400 ≤ c.toNat && c.toNat ≤ 0x4FF

/-- Embeds `bool(re.search("[а-яА-Я]", s))`: the character class covers
exactly the codepoints U+0430..U+044F (а..я) and U+0410..U+042F (А..Я). -/
def hasRussian (s : String) : Bool :=
  s.data.any (fun c =>
    (0x430 ≤ c.toNat && c.toNat ≤ 0x44F) ||
    (0x410 ≤ c.toNat && c.toNat ≤ 0x42F))

/-- Helper for `wordCount`: counts maximal non-whitespace runs; the flag
records whether the previous character was part of a word. -/
def countWordsAux : List Char → Bool → Nat
  | [], _ => 0
  | c :: cs, inWord =>
    if c.isWhitespace then countWordsAux cs false
    else if inWord then countWordsAux cs true
    else countWordsAux cs true + 1

/-- Embeds `len(s.split())`: number of whitespace-separated words
(whitespace restricted to the ASCII whitespace the program uses). -/
def wordCount (s : String) : Nat :=
  countWordsAux s.data false

/-- The sentinel text the `except` clause of `get_model_response` returns:
`f"Error getting response from {client_type}: {str(e)}"`. -/
def sentinel (client_type detail : String) : String :=
  "Error getting response from " ++ client_type ++ ": " ++ detail

/-- Embeds `TestCooperativeBehavior.get_model_response`. The three known
client branches are abstracted by the oracle `call`; a branch may return a
payload (`Except.ok`, possibly `none` as Python's `None`) or raise
(`Except.error`), in which case the sentinel error string is returned.
An unknown `client_type` matches no branch and the function falls through
the `try` body, returning Python's implicit `None`. -/
def get_model_response (call : String → String → Except String (Option String))
    (client_type prompt : String) : Option String :=
  if client_type == "openai" || client_type == "ollama" || client_type == "gigachat" then
    match call client_type prompt with
    | Except.ok v => v
    | Except.error e => some (sentinel client_type e)
  else
    none

/-- The distinct validation failures the two tests can abort with; each
`assert` of the source maps to one constructor, carrying the backend name
its message embeds. -/
inductive VFailure where
  | notString (model : String)
  | empty (model : String)
  | noLetters (model : String)
  | notRussian (model : String)
  | tooShort (model : String)
  | notUnique
deriving DecidableEq, Repr

/-- Decidable equality of validation outcomes, for evaluating concrete
runs. -/
instance {ε α : Type} [DecidableEq ε] [DecidableEq α] : DecidableEq (Except ε α) := fun a b =>
  match a, b with
  | Except.ok x, Except.ok y =>
    if h : x = y then isTrue (by rw [h]) else isFalse (by intro hc; cases hc; exact h rfl)
  | Except.error x, Except.error y =>
    if h : x = y then isTrue (by rw [h]) else isFalse (by intro hc; cases hc; exact h rfl)
  | Except.ok _, Except.error _ => isFalse (by intro hc; cases hc)
  | Except.error _, Except.ok _ => isFalse (by intro hc; cases hc)

/-- One element of the in-memory `dialogue_entries` list: the dict with
keys `model`, `type`, `content` and optional `aspect`. -/
structure Entry where
  model : String
  type : String
  content : String
  aspect : Option String
deriving DecidableEq, Repr

/-- One row of the `model_dialogues` table (the `id` column is the row's
position in the list; `timestamp` is the insertion-time clock value). -/
structure Row where
  test_name : String
  timestamp : Nat
  model_name : String
  message_type : String
  message_content : String
  aspect : Option String
  sequence_number : Nat
deriving DecidableEq, Repr

/-- The `for seq_num, entry in enumerate(dialogue_entries)` insertion loop
of `save_dialogue_to_db`, started at `n`; `clock i` is the value
`CURRENT_TIMESTAMP` takes for the insert with sequence number `i`. -/
def insertRows (clock : Nat → Nat) (name : String) : Nat → List Entry → List Row
  | _, [] => []
  | n, e :: es =>
    ⟨name, clock n, e.model, e.type, e.content, e.aspect, n⟩ :: insertRows clock name (n + 1) es

/-- Embeds `TestCooperativeBehavior.save_dialogue_to_db`: appends one row
per entry, sequence numbers enumerated from 0. -/
def save_dialogue_to_db (clock : Nat → Nat) (db : List Row) (test_name : String)
    (entries : List Entry) : List Row :=
  db ++ insertRows clock test_name 0 entries

/-- Stable insertion step for `ORDER BY sequence_number` (ascending). -/
def insertBySeq (r : Row) : List Row → List Row
  | [] => [r]
  | x :: xs =>
    if r.sequence_number ≤ x.sequence_number then r :: x :: xs
    else x :: insertBySeq r xs

/-- Stable insertion sort by `sequence_number`, modelling the
`ORDER BY sequence_number` of the transcript queries. -/
def sortBySeq : List Row → List Row
  | [] => []
  | x :: xs => insertBySeq x (sortBySeq xs)

/-- Embeds `TestCooperativeBehavior.get_dialogue_from_db`:
`SELECT * … WHERE test_name = ? ORDER BY sequence_number`. -/
def get_dialogue_from_db (db : List Row) (test_name : String) : List Row :=
  sortBySeq (db.filter (fun r => r.test_name == test_name))

/-- The `(test_name, timestamp)` projection of every row, the column pair
of the `SELECT DISTINCT` in `view_latest_test_results`. -/
def pairsOf (db : List Row) : List (String × Nat) :=
  db.map (fun r => (r.test_name, r.timestamp))

/-- Stable insertion step for `ORDER BY timestamp DESC`. -/
def insertByTsDesc (p : String × Nat) : List (String × Nat) → List (String × Nat)
  | [] => [p]
  | q :: qs => if q.2 ≤ p.2 then p :: q :: qs else q :: insertByTsDesc p qs

/-- Stable insertion sort by timestamp, descending, modelling
`ORDER BY timestamp DESC`. -/
def sortByTsDesc : List (String × Nat) → List (String × Nat)
  | [] => []
  | p :: ps => insertByTsDesc p (sortByTsDesc ps)

/-- The query of `view_latest_test_results`, parameterised by the limit
(the source hard-codes `LIMIT 5`):
`SELECT DISTINCT test_name, timestamp FROM model_dialogues
 ORDER BY timestamp DESC LIMIT limit`. Distinctness is over the
(test_name, timestamp) pair, and the result is ordered by timestamp. -/
def recent_runs (db : List Row) (limit : Nat) : List (String × Nat) :=
  (sortByTsDesc (pairsOf db).dedup).take limit

/-- The validation block of `test_russian_dialogue` (Plan A): in order,
`isinstance(response, str)`, `len(response) > 0`,
`any(char.isalpha() for char in response)`, `re.search("[а-яА-Я]", …)`.
Returns the response on success, the first failing check otherwise. -/
def validateA (model : String) (r : Option String) : Except VFailure String :=
  match r with
  | none => Except.error (VFailure.notString model)
  | some response =>
    if response.length > 0 then
      if response.data.any pyIsAlpha then
        if hasRussian response then Except.ok response
        else Except.error (VFailure.notRussian model)
      else Except.error (VFailure.noLetters model)
    else Except.error (VFailure.empty model)

/-- The validation block of the aspect loop of `test_task_solving_dialogue`:
in order, `isinstance(response, str)`, `len(response) > 0`,
`re.search("[а-яА-Я]", …)`. Note: no alphabetic-content check appears here
in the source. -/
def validateBAspect (model : String) (r : Option String) : Except VFailure String :=
  match r with
  | none => Except.error (VFailure.notString model)
  | some response =>
    if response.length > 0 then
      if hasRussian response then Except.ok response
      else Except.error (VFailure.notRussian model)
    else Except.error (VFailure.empty model)

/-- The validation block of the final loop of `test_task_solving_dialogue`:
in order, `isinstance`, `len > 0`, the Russian check, and
`word_count >= min_words` with `min_words = 20`. -/
def validateBFinal (model : String) (r : Option String) : Except VFailure String :=
  match r with
  | none => Except.error (VFailure.notString model)
  | some response =>
    if response.length > 0 then
      if hasRussian response then
        if 20 ≤ wordCount response then Except.ok response
        else Except.error (VFailure.tooShort model)
      else Except.error (VFailure.notRussian model)
    else Except.error (VFailure.empty model)

/-- Modelled from the spec: the Response Validator's checks 1-4 applied in
order (type/shape, non-empty, alphabetic content, target language), each
failure naming its own rule. Used to compare the spec's description of the
aspect-phase validation with the code's `validateBAspect`. -/
def checks_one_to_four (model : String) (r : Option String) : Except VFailure String :=
  match r with
  | none => Except.error (VFailure.notString model)
  | some response =>
    if response.length > 0 then
      if response.data.any pyIsAlpha then
        if hasRussian response then Except.ok response
        else Except.error (VFailure.notRussian model)
      else Except.error (VFailure.noLetters model)
    else Except.error (VFailure.empty model)

/-- The `topic` string seeding `test_russian_dialogue`. -/
def topicText : String :=
  "\n        Let\x27s discuss the importance of collaboration between different language models \n        for solving complex tasks. How can we best utilize the strengths of each model?\n        "

/-- The seed entry of Plan A. -/
def seedA : Entry := ⟨"system", "topic", topicText, none⟩

/-- The configured backend order, `models = ["openai", "ollama", "gigachat"]`. -/
def modelsList : List String := ["openai", "ollama", "gigachat"]

/-- The per-turn prompt template of `test_russian_dialogue`, around the
accumulated context block. -/
def planA_prompt (context : String) : String :=
  "\n                Context of the previous discussion:\n                " ++ context ++
  "\n\n                Please continue the dialogue, considering the following requirements:\n                1. The response must be in Russian\n                2. The response must be related to previous messages\n                3. Provide a constructive suggestion or idea\n                4. Response length - no more than 2-3 sentences\n                "

/-- The context block: `"\n".join(entry["content"] for entry in dialogue_entries)`. -/
def contextOf (entries : List Entry) : String :=
  String.intercalate "\n" (entries.map Entry.content)

/-- The doubly nested turn loop of `test_russian_dialogue`, flattened to
the row-major list of backends to visit (`gmr` is `get_model_response`
partially applied to the clients). Each turn rebuilds the context from all
entries so far, prompts the backend, validates, and appends the accepted
response to the in-memory list; a failed check aborts the whole loop. -/
def planA_loop (gmr : String → String → Option String) :
    List String → List Entry → Except VFailure (List Entry)
  | [], entries => Except.ok entries
  | model :: rest, entries =>
    match validateA model (gmr model (planA_prompt (contextOf entries))) with
    | Except.error f => Except.error f
    | Except.ok response =>
      planA_loop gmr rest (entries ++ [⟨model, "response", response, none⟩])

/-- `for i in range(3): for model in models:` — the row-major turn order. -/
def planA_turnOrder : List String := modelsList ++ modelsList ++ modelsList

/-- Embeds `TestCooperativeBehavior.test_russian_dialogue`: seeds the
in-memory list with the topic, runs the 3 x 3 round-robin, and only after
every turn validated saves the whole list under `test_name`. Returns the
resulting store and the failure the test aborted with, if any. -/
def test_russian_dialogue (call : String → String → Except String (Option String))
    (clock : Nat → Nat) (db : List Row) (test_name : String) :
    List Row × Option VFailure :=
  match planA_loop (get_model_response call) planA_turnOrder [seedA] with
  | Except.error f => (db, some f)
  | Except.ok entries => (save_dialogue_to_db clock db test_name entries, none)

/-- The `task` string seeding `test_task_solving_dialogue`. -/
def taskText : String :=
  "\n        Task: Develop a concept for an educational platform for children.\n        Each model should propose a solution for the following aspects:\n        1. Technical aspect\n        2. Pedagogical aspect\n        3. User experience aspect\n        "

/-- The seed entry of Plan B. -/
def seedB : Entry := ⟨"system", "task", taskText, none⟩

/-- The `aspects` dict, in insertion order. -/
def aspectsList : List (String × String) :=
  [("openai", "technical aspect of the platform"),
   ("ollama", "pedagogical aspect of the platform"),
   ("gigachat", "user experience aspect")]

/-- The aspect-phase prompt template of `test_task_solving_dialogue`. -/
def aspectPrompt (aspect : String) : String :=
  "\n            " ++ taskText ++
  "\n\n            Please propose a solution for the following aspect: " ++ aspect ++
  "\n\n            Requirements for the response:\n            1. The response must be in Russian\n            2. Provide a specific solution\n            3. Explain how it will help in children\x27s education\n            4. Response length - 2-3 sentences\n            "

/-- `responses[key]` over the association list accumulated by the aspect
loop (every key the source looks up is always present). -/
def lookupResp (resps : List (String × String)) (key : String) : String :=
  match resps.find? (fun p => p.1 == key) with
  | some p => p.2
  | none => ""

/-- The `final_prompt` template, embedding the three aspect responses. -/
def finalPrompt (resps : List (String × String)) : String :=
  "\n        Analyze the proposed solutions and suggest how they can be combined:\n        Technical solution: " ++ lookupResp resps "openai" ++
  "\n        Pedagogical solution: " ++ lookupResp resps "ollama" ++
  "\n        UX solution: " ++ lookupResp resps "gigachat" ++
  "\n\n        Requirements for the response:\n        1. The response must be in Russian\n        2. Propose a concrete plan for combining the solutions\n        3. Indicate the advantages of such a combination\n        4. Response length - 3-4 sentences\n        "

/-- The `for model, aspect in aspects.items():` loop of
`test_task_solving_dialogue`: prompts each backend with its aspect,
validates, and extends both the entry list (entry kind `aspect_response`,
labelled with the aspect) and the `responses` association list. A failed
check aborts the loop (the in-memory extensions of the aborting iteration
are never observable, so the accepted-response extension is performed after
validation here). -/
def planB_aspectLoop (gmr : String → String → Option String) :
    List (String × String) → List Entry → List (String × String) →
    Except VFailure (List Entry × List (String × String))
  | [], entries, resps => Except.ok (entries, resps)
  | (model, aspect) :: rest, entries, resps =>
    match validateBAspect model (gmr model (aspectPrompt aspect)) with
    | Except.error f => Except.error f
    | Except.ok response =>
      planB_aspectLoop gmr rest
        (entries ++ [⟨model, "aspect_response", response, some aspect⟩])
        (resps ++ [(model, response)])

/-- The `for model in models:` synthesis loop of
`test_task_solving_dialogue`: prompts each backend with the shared final
prompt, validates (including the 20-word minimum), and extends the entry
list (entry kind `final_response`) and the collected final-response list. -/
def planB_finalLoop (gmr : String → String → Option String) (fprompt : String) :
    List String → List Entry → List String →
    Except VFailure (List Entry × List String)
  | [], entries, finals => Except.ok (entries, finals)
  | model :: rest, entries, finals =>
    match validateBFinal model (gmr model fprompt) with
    | Except.error f => Except.error f
    | Except.ok response =>
      planB_finalLoop gmr fprompt rest
        (entries ++ [⟨model, "final_response", response, none⟩])
        (finals ++ [response])

/-- Embeds `TestCooperativeBehavior.test_task_solving_dialogue`: seeds with
the task, collects the aspect responses, collects the final responses,
saves the whole dialogue, and only then asserts
`len(set(final_responses)) == len(models)`. -/
def test_task_solving_dialogue (call : String → String → Except String (Option String))
    (clock : Nat → Nat) (db : List Row) (test_name : String) :
    List Row × Option VFailure :=
  match planB_aspectLoop (get_model_response call) aspectsList [seedB] [] with
  | Except.error f => (db, some f)
  | Except.ok (entries, resps) =>
    match planB_finalLoop (get_model_response call) (finalPrompt resps) modelsList entries [] with
    | Except.error f => (db, some f)
    | Except.ok (entries2, finals) =>
      let db2 := save_dialogue_to_db clock db test_name entries2
      if finals.dedup.length == modelsList.length then (db2, none)
      else (db2, some VFailure.notUnique)

/-- The stores reachable by the program: `init_db` yields the empty table,
and each test performs one `save_dialogue_to_db` call under a freshly
generated, timestamped run name. -/
inductive Reachable : List Row → Prop
  | nil : Reachable []
  | save (db : List Row) (clock : Nat → Nat) (name : String) (es : List Entry)
      (h : Reachable db) (fresh : ∀ r ∈ db, r.test_name ≠ name) :
      Reachable (save_dialogue_to_db clock db name es)

/-- Stores built by a sequence of non-empty runs saved under fresh names at
strictly increasing timestamps, each run's rows sharing one timestamp;
`runs` records the (name, timestamp) pairs in creation order. -/
inductive RunsAt : List Row → List (String × Nat) → Prop
  | nil : RunsAt [] []
  | save (db : List Row) (runs : List (String × Nat)) (name : String) (ts : Nat)
      (es : List Entry) (h : RunsAt db runs)
      (freshName : ∀ p ∈ runs, p.1 ≠ name)
      (hts : ∀ p ∈ runs, p.2 < ts) (hne : es ≠ []) :
      RunsAt (save_dialogue_to_db (fun _ => ts) db name es) (runs ++ [(name, ts)])

/-! ### Store lemmas -/

theorem insertRows_map_seq (clock : Nat → Nat) (name : String) :
    ∀ (es : List Entry) (n : Nat),
      (insertRows clock name n es).map Row.sequence_number = List.range' n es.length
  | [], _ => rfl
  | e :: es, n => by
    simp [insertRows, List.range', insertRows_map_seq clock name es (n + 1)]

theorem insertRows_length (clock : Nat → Nat) (name : String) :
    ∀ (es : List Entry) (n : Nat), (insertRows clock name n es).length = es.length
  | [], _ => rfl
  | e :: es, n => by simp [insertRows, insertRows_length clock name es (n + 1)]

theorem insertRows_map_model (clock : Nat → Nat) (name : String) :
    ∀ (es : List Entry) (n : Nat),
      (insertRows clock name n es).map Row.model_name = es.map Entry.model
  | [], _ => rfl
  | e :: es, n => by simp [insertRows, insertRows_map_model clock name es (n + 1)]

theorem insertRows_map_type (clock : Nat → Nat) (name : String) :
    ∀ (es : List Entry) (n : Nat),
      (insertRows clock name n es).map Row.message_type = es.map Entry.type
  | [], _ => rfl
  | e :: es, n => by simp [insertRows, insertRows_map_type clock name es (n + 1)]

theorem insertRows_test_name (clock : Nat → Nat) (name : String) :
    ∀ (es : List Entry) (n : Nat) (r : Row), r ∈ insertRows clock name n es → r.test_name = name
  | e :: es, n, r, h => by
    rcases List.mem_cons.1 h with h | h
    · rw [h]
    · exact insertRows_test_name clock name es (n + 1) r h

theorem insertRows_filter_self (clock : Nat → Nat) (name : String) (es : List Entry) (n : Nat) :
    (insertRows clock name n es).filter (fun r => r.test_name == name) =
      insertRows clock name n es := by
  rw [List.filter_eq_self]
  intro r hr
  simp [insertRows_test_name clock name es n r hr]

theorem insertRows_filter_other (clock : Nat → Nat) (name name2 : String) (hne : name ≠ name2)
    (es : List Entry) (n : Nat) :
    (insertRows clock name n es).filter (fun r => r.test_name == name2) = [] := by
  rw [List.filter_eq_nil_iff]
  intro r hr
  simp [insertRows_test_name clock name es n r hr, hne]

theorem sortBySeq_insertRows (clock : Nat → Nat) (name : String) :
    ∀ (es : List Entry) (n : Nat),
      sortBySeq (insertRows clock name n es) = insertRows clock name n es
  | [], _ => rfl
  | e :: es, n => by
    simp only [insertRows, sortBySeq, sortBySeq_insertRows clock name es (n + 1)]
    cases es with
    | nil => simp [insertRows, insertBySeq]
    | cons e' es' => simp [insertRows, insertBySeq, Nat.le_succ]

theorem filter_of_fresh (db : List Row) (name : String) (fresh : ∀ r ∈ db, r.test_name ≠ name) :
    db.filter (fun r => r.test_name == name) = [] := by
  rw [List.filter_eq_nil_iff]
  intro r hr
  simp [fresh r hr]

theorem get_dialogue_save_fresh (clock : Nat → Nat) (db : List Row) (name : String)
    (es : List Entry) (fresh : ∀ r ∈ db, r.test_name ≠ name) :
    get_dialogue_from_db (save_dialogue_to_db clock db name es) name =
      insertRows clock name 0 es := by
  unfold get_dialogue_from_db save_dialogue_to_db
  rw [List.filter_append, filter_of_fresh db name fresh, List.nil_append,
    insertRows_filter_self, sortBySeq_insertRows]

/-! ### Orchestrator loop lemmas -/

theorem planA_loop_ok (gmr : String → String → Option String) :
    ∀ (ms : List String) (es es' : List Entry),
      planA_loop gmr ms es = Except.ok es' →
      ∃ rs : List String, rs.length = ms.length ∧
        es' = es ++ (ms.zip rs).map (fun p => ⟨p.1, "response", p.2, none⟩)
  | [], es, es', h => by
    refine ⟨[], rfl, ?_⟩
    simp only [planA_loop, Except.ok.injEq] at h
    simp [← h]
  | m :: ms, es, es', h => by
    simp only [planA_loop] at h
    cases hv : validateA m (gmr m (planA_prompt (contextOf es))) with
    | error f => rw [hv] at h; exact absurd h (by simp)
    | ok response =>
      rw [hv] at h
      obtain ⟨rs, hlen, heq⟩ := planA_loop_ok gmr ms _ es' h
      refine ⟨response :: rs, by simp [hlen], ?_⟩
      simp [heq]

theorem planB_aspectLoop_ok (gmr : String → String → Option String) :
    ∀ (l : List (String × String)) (es : List Entry) (rs : List (String × String))
      (es' : List Entry) (rs' : List (String × String)),
      planB_aspectLoop gmr l es rs = Except.ok (es', rs') →
      ∃ ts : List String, ts.length = l.length ∧
        es' = es ++ (l.zip ts).map (fun p => ⟨p.1.1, "aspect_response", p.2, some p.1.2⟩) ∧
        rs' = rs ++ (l.zip ts).map (fun p => (p.1.1, p.2))
  | [], es, rs, es', rs', h => by
    refine ⟨[], rfl, ?_, ?_⟩ <;>
      simp only [planB_aspectLoop, Except.ok.injEq, Prod.mk.injEq] at h <;>
      simp [← h.1, ← h.2]
  | (model, aspect) :: l, es, rs, es', rs', h => by
    simp only [planB_aspectLoop] at h
    cases hv : validateBAspect model (gmr model (aspectPrompt aspect)) with
    | error f => rw [hv] at h; exact absurd h (by simp)
    | ok response =>
      rw [hv] at h
      obtain ⟨ts, hlen, heq, hrq⟩ := planB_aspectLoop_ok gmr l _ _ es' rs' h
      refine ⟨response :: ts, by simp [hlen], ?_, ?_⟩
      · simp [heq]
      · simp [hrq]

theorem planB_finalLoop_ok (gmr : String → String → Option String) (fprompt : String) :
    ∀ (ms : List String) (es : List Entry) (fs : List String)
      (es' : List Entry) (fs' : List String),
      planB_finalLoop gmr fprompt ms es fs = Except.ok (es', fs') →
      ∃ ts : List String, ts.length = ms.length ∧
        es' = es ++ (ms.zip ts).map (fun p => ⟨p.1, "final_response", p.2, none⟩) ∧
        fs' = fs ++ ts
  | [], es, fs, es', fs', h => by
    refine ⟨[], rfl, ?_, ?_⟩ <;>
      simp only [planB_finalLoop, Except.ok.injEq, Prod.mk.injEq] at h <;>
      simp [← h.1, ← h.2]
  | m :: ms, es, fs, es', fs', h => by
    simp only [planB_finalLoop] at h
    cases hv : validateBFinal m (gmr m fprompt) with
    | error f => rw [hv] at h; exact absurd h (by simp)
    | ok response =>
      rw [hv] at h
      obtain ⟨ts, hlen, heq, hfq⟩ := planB_finalLoop_ok gmr fprompt ms _ _ es' fs' h
      refine ⟨response :: ts, by simp [hlen], ?_, ?_⟩
      · simp [heq]
      · simp [hfq]

theorem validateBAspect_error_ne (model : String) (r : Option String) (f : VFailure)
    (h : validateBAspect model r = Except.error f) : f ≠ VFailure.notUnique := by
  cases r with
  | none => simp only [validateBAspect] at h; intro hc; rw [hc] at h; exact absurd h.symm (by simp)
  | some response =>
    simp only [validateBAspect] at h
    intro hc
    rw [hc] at h
    by_cases hl : response.length > 0 <;> by_cases hr : hasRussian response <;>
      simp [hl, hr] at h

theorem validateBFinal_error_ne (model : String) (r : Option String) (f : VFailure)
    (h : validateBFinal model r = Except.error f) : f ≠ VFailure.notUnique := by
  cases r with
  | none => simp only [validateBFinal] at h; intro hc; rw [hc] at h; exact absurd h.symm (by simp)
  | some response =>
    simp only [validateBFinal] at h
    intro hc
    rw [hc] at h
    by_cases hl : response.length > 0 <;> by_cases hr : hasRussian response <;>
      by_cases hw : 20 ≤ wordCount response <;> simp [hl, hr, hw] at h

theorem planB_aspectLoop_error_ne (gmr : String → String → Option String) :
    ∀ (l : List (String × String)) (es : List Entry) (rs : List (String × String)) (f : VFailure),
      planB_aspectLoop gmr l es rs = Except.error f → f ≠ VFailure.notUnique
  | [], es, rs, f, h => by simp [planB_aspectLoop] at h
  | (model, aspect) :: l, es, rs, f, h => by
    simp only [planB_aspectLoop] at h
    cases hv : validateBAspect model (gmr model (aspectPrompt aspect)) with
    | error g =>
      rw [hv] at h
      simp only [Except.error.injEq] at h
      rw [← h]
      exact validateBAspect_error_ne _ _ _ hv
    | ok response =>
      rw [hv] at h
      exact planB_aspectLoop_error_ne gmr l _ _ f h

theorem planB_finalLoop_error_ne (gmr : String → String → Option String) (fprompt : String) :
    ∀ (ms : List String) (es : List Entry) (fs : List String) (f : VFailure),
      planB_finalLoop gmr fprompt ms es fs = Except.error f → f ≠ VFailure.notUnique
  | [], es, fs, f, h => by simp [planB_finalLoop] at h
  | m :: ms, es, fs, f, h => by
    simp only [planB_finalLoop] at h
    cases hv : validateBFinal m (gmr m fprompt) with
    | error g =>
      rw [hv] at h
      simp only [Except.error.injEq] at h
      rw [← h]
      exact validateBFinal_error_ne _ _ _ hv
    | ok response =>
      rw [hv] at h
      exact planB_finalLoop_error_ne gmr fprompt ms _ _ f h

/-! ### Claim C2 — target-language check soundness -/

/-- C2 counterexample: the claim "for every non-empty text containing at
least one Cyrillic letter the check passes" is false: "ё" (U+0451) is a
non-empty text consisting of one Cyrillic letter, yet the regex class
[а-яА-Я] does not contain it, so the target-language check fails. -/
theorem russian_check_misses_yo :
    "ё".length > 0 ∧ "ё".data.any isCyrillicLetter = true ∧ hasRussian "ё" = false := by
  decide

/-- C2 (amended): for every text containing zero Cyrillic characters the
target-language check fails; for every non-empty text containing at least
one Cyrillic letter inside the regex ranges U+0410..U+044F (а-я, А-Я;
letters such as ё/Ё fall outside) the check passes. -/
theorem russian_check_soundness (s : String) :
    ((∀ c ∈ s.data, isCyrillicChar c = false) → hasRussian s = false) ∧
    (s.length > 0 →
      (∃ c ∈ s.data, isCyrillicLetter c = true ∧ 0x410 ≤ c.toNat ∧ c.toNat ≤ 0x44F) →
      hasRussian s = true) := by
  constructor
  · intro h
    unfold hasRussian
    rw [List.any_eq_false]
    intro c hc
    have hb := h c hc
    simp only [isCyrillicChar, Bool.and_eq_false_iff, decide_eq_false_iff_not, not_le] at hb
    simp only [Bool.or_eq_true, Bool.and_eq_true, decide_eq_true_eq, not_or, not_and, not_le]
    omega
  · rintro - ⟨c, hc, -, h1, h2⟩
    unfold hasRussian
    rw [List.any_eq_true]
    refine ⟨c, hc, ?_⟩
    simp only [Bool.or_eq_true, Bool.and_eq_true, decide_eq_true_eq]
    omega

/-- Witness for `russian_check_soundness` at concrete inputs: a Latin-only
text fails the check, a Russian word passes it. -/
theorem russian_check_soundness_witness :
    hasRussian "hello" = false ∧ hasRussian "привет" = true :=
  ⟨(russian_check_soundness "hello").1 (by decide),
   (russian_check_soundness "привет").2 (by decide) (by decide)⟩

/-! ### Claim C3 — sequence numbers per append call -/

/-- An entry used by concrete store scenarios. -/
def topicEntry : Entry := ⟨"system", "topic", "тема", none⟩

/-- Another entry used by concrete store scenarios. -/
def responseEntry : Entry := ⟨"openai", "response", "ответ", none⟩

/-- C3 counterexample: after a run named "run" already stores one entry
(max sequence number 0), a second `save_dialogue_to_db` call for the same
run assigns sequence number 0 again, not 1 as the claim requires. -/
theorem save_restarts_sequence_cex :
    (save_dialogue_to_db (fun _ => 1)
        (save_dialogue_to_db (fun _ => 0) [] "run" [topicEntry]) "run"
        [responseEntry]).map Row.sequence_number = [0, 0] ∧
    ¬ (save_dialogue_to_db (fun _ => 1)
        (save_dialogue_to_db (fun _ => 0) [] "run" [topicEntry]) "run"
        [responseEntry]).map Row.sequence_number = [0, 1] := by
  decide

/-- C3 (amended): `save_dialogue_to_db` assigns sequence numbers 0..k-1 by
position within the passed entry list, independently of what is already
stored; this coincides with the claim only when the run has no stored
entries, in which case the run's transcript carries exactly 0..k-1. -/
theorem save_assigns_positional_sequence (clock : Nat → Nat) (db : List Row)
    (name : String) (es : List Entry) :
    ((save_dialogue_to_db clock db name es).drop db.length).map Row.sequence_number =
      List.range es.length ∧
    ((∀ r ∈ db, r.test_name ≠ name) →
      (get_dialogue_from_db (save_dialogue_to_db clock db name es) name).map
        Row.sequence_number = List.range es.length) := by
  constructor
  · unfold save_dialogue_to_db
    rw [List.drop_left, insertRows_map_seq, List.range_eq_range']
  · intro fresh
    rw [get_dialogue_save_fresh clock db name es fresh, insertRows_map_seq,
      List.range_eq_range']

/-- Witness for `save_assigns_positional_sequence`: saving two entries under
a fresh name stores sequence numbers [0, 1]. -/
theorem save_assigns_positional_sequence_witness :
    (get_dialogue_from_db
        (save_dialogue_to_db (fun _ => 0) [] "run" [topicEntry, responseEntry]) "run").map
      Row.sequence_number = List.range 2 :=
  (save_assigns_positional_sequence (fun _ => 0) [] "run" [topicEntry, responseEntry]).2
    (by simp)

/-! ### Claim C4 — aspect-phase validation checks -/

/-- C4 counterexample: on the letterless response "123" the aspect-phase
validation of Plan B reports the target-language failure, while the spec's
checks 1-4 (which include the alphabetic-content check, applied before the
target-language check) report the no-letters failure: the aspect phase does
not perform check 3. -/
theorem aspect_validation_skips_letter_check_cex :
    validateBAspect "openai" (some "123") =
      Except.error (VFailure.notRussian "openai") ∧
    checks_one_to_four "openai" (some "123") =
      Except.error (VFailure.noLetters "openai") := by
  decide

/-- Any character of the regex class [а-яА-Я] is alphabetic. -/
theorem regexClass_pyIsAlpha (c : Char)
    (h : ((0x430 ≤ c.toNat && c.toNat ≤ 0x44F) ||
          (0x410 ≤ c.toNat && c.toNat ≤ 0x42F)) = true) : pyIsAlpha c = true := by
  simp only [Bool.or_eq_true, Bool.and_eq_true, decide_eq_true_eq] at h
  simp only [pyIsAlpha, Bool.or_eq_true, Bool.and_eq_true, decide_eq_true_eq]
  omega

/-- C4 (amended): Plan B's aspect-phase validation performs only the type,
non-emptiness and target-language checks — the alphabetic-content check is
absent — but it accepts exactly the responses accepted by the spec's checks
1-4, because any character of the Cyrillic target range is a letter; only
the failure reported for a letterless response differs. -/
theorem aspect_validation_equiv_checks (model : String) (r : Option String) (s : String) :
    validateBAspect model r = Except.ok s ↔ checks_one_to_four model r = Except.ok s := by
  cases r with
  | none => simp [validateBAspect, checks_one_to_four]
  | some response =>
    simp only [validateBAspect, checks_one_to_four]
    by_cases hl : response.length > 0
    · simp only [if_pos hl]
      by_cases hr : hasRussian response
      · have ha : response.data.any pyIsAlpha = true := by
          unfold hasRussian at hr
          rw [List.any_eq_true] at hr ⊢
          obtain ⟨c, hc, hcr⟩ := hr
          exact ⟨c, hc, regexClass_pyIsAlpha c hcr⟩
        simp [hr, ha]
      · by_cases ha : response.data.any pyIsAlpha <;> simp [hr, ha]
    · simp [if_neg hl]

/-! ### Claim C9 — unknown client type -/

/-- C9: for every client type outside {"openai", "ollama", "gigachat"} and
any prompt, `get_model_response` falls through the dispatch and returns
None — neither a text value nor the sentinel error string, and no exception
— and the subsequent type/shape check is the rule that rejects the value,
whichever validation block receives it. -/
theorem unknown_client_returns_none (call : String → String → Except String (Option String))
    (client_type prompt : String) (h1 : client_type ≠ "openai")
    (h2 : client_type ≠ "ollama") (h3 : client_type ≠ "gigachat") :
    get_model_response call client_type prompt = none ∧
    (∀ model, validateA model (get_model_response call client_type prompt) =
      Except.error (VFailure.notString model)) ∧
    (∀ model, validateBAspect model (get_model_response call client_type prompt) =
      Except.error (VFailure.notString model)) ∧
    (∀ model, validateBFinal model (get_model_response call client_type prompt) =
      Except.error (VFailure.notString model)) := by
  have hnone : get_model_response call client_type prompt = none := by
    unfold get_model_response
    have hb : (client_type == "openai" || client_type == "ollama" ||
        client_type == "gigachat") = false := by
      simp [h1, h2, h3]
    rw [hb]
    simp
  refine ⟨hnone, fun model => ?_, fun model => ?_, fun model => ?_⟩ <;>
    rw [hnone] <;> rfl

/-- Witness for `unknown_client_returns_none` at the concrete client type
"mistral". -/
theorem unknown_client_returns_none_witness :
    get_model_response (fun _ _ => Except.ok none) "mistral" "hi" = none ∧
    validateA "mistral" (get_model_response (fun _ _ => Except.ok none) "mistral" "hi") =
      Except.error (VFailure.notString "mistral") :=
  ⟨(unknown_client_returns_none (fun _ _ => Except.ok none) "mistral" "hi"
      (by decide) (by decide) (by decide)).1,
   (unknown_client_returns_none (fun _ _ => Except.ok none) "mistral" "hi"
      (by decide) (by decide) (by decide)).2.1 "mistral"⟩

/-! ### Claim C1 — persistence relative to validation aborts -/

/-- An adapter stub: openai answers in Russian, every other backend returns
the empty string. -/
def emptyOllamaCall : String → String → Except String (Option String) :=
  fun ct _ => if ct == "openai" then Except.ok (some "привет мир") else Except.ok (some "")

/-- C1 counterexample: with `emptyOllamaCall`, Plan A aborts on ollama's
first turn with the non-empty-check failure, after openai's first response
already validated — yet the stored transcript for the run is empty, not
"the seed plus openai's response": no entry is persisted before the single
end-of-run save. -/
theorem planA_abort_stores_nothing_cex :
    (test_russian_dialogue emptyOllamaCall (fun _ => 0) [] "russian_run").2 =
      some (VFailure.empty "ollama") ∧
    get_dialogue_from_db
      (test_russian_dialogue emptyOllamaCall (fun _ => 0) [] "russian_run").1
      "russian_run" = [] := by
  decide

/-- C1 (amended): neither plan persists entries turn by turn; entries
accumulate in memory and are written by one `save_dialogue_to_db` call per
run — in Plan A after all turns validate, in Plan B before the uniqueness
check. Hence a validation failure on any backend's turn (any failure other
than Plan B's uniqueness failure) leaves the store unchanged, and the
stored transcript of the aborted run is empty. -/
theorem abort_before_save_leaves_store_unchanged
    (call : String → String → Except String (Option String)) (clock : Nat → Nat)
    (db : List Row) (name : String) :
    (∀ f, (test_russian_dialogue call clock db name).2 = some f →
      (test_russian_dialogue call clock db name).1 = db) ∧
    (∀ f, f ≠ VFailure.notUnique →
      (test_task_solving_dialogue call clock db name).2 = some f →
      (test_task_solving_dialogue call clock db name).1 = db) ∧
    (∀ f, (∀ r ∈ db, r.test_name ≠ name) →
      (test_russian_dialogue call clock db name).2 = some f →
      get_dialogue_from_db (test_russian_dialogue call clock db name).1 name = []) ∧
    (∀ f, f ≠ VFailure.notUnique → (∀ r ∈ db, r.test_name ≠ name) →
      (test_task_solving_dialogue call clock db name).2 = some f →
      get_dialogue_from_db (test_task_solving_dialogue call clock db name).1 name = []) := by
  have hA : ∀ f, (test_russian_dialogue call clock db name).2 = some f →
      (test_russian_dialogue call clock db name).1 = db := by
    intro f hf
    unfold test_russian_dialogue at hf ⊢
    cases hL : planA_loop (get_model_response call) planA_turnOrder [seedA] with
    | error g => simp [hL]
    | ok entries => rw [hL] at hf; simp at hf
  have hB : ∀ f, f ≠ VFailure.notUnique →
      (test_task_solving_dialogue call clock db name).2 = some f →
      (test_task_solving_dialogue call clock db name).1 = db := by
    intro f hne hf
    unfold test_task_solving_dialogue at hf ⊢
    cases hL : planB_aspectLoop (get_model_response call) aspectsList [seedB] [] with
    | error g => simp [hL]
    | ok p =>
      obtain ⟨entries, resps⟩ := p
      rw [hL] at hf
      dsimp only at hf ⊢
      cases hM : planB_finalLoop (get_model_response call) (finalPrompt resps)
          modelsList entries [] with
      | error g => simp [hM]
      | ok q =>
        obtain ⟨entries2, finals⟩ := q
        rw [hM] at hf
        dsimp only at hf ⊢
        by_cases hu : (finals.dedup.length == modelsList.length) = true
        · rw [if_pos hu] at hf; simp at hf
        · rw [if_neg hu] at hf
          dsimp only at hf
          rw [Option.some.injEq] at hf
          exact absurd hf.symm hne
  have hEmpty : ∀ dbr : List Row, dbr = db → (∀ r ∈ db, r.test_name ≠ name) →
      get_dialogue_from_db dbr name = [] := by
    intro dbr heq fresh
    rw [heq]
    unfold get_dialogue_from_db
    rw [filter_of_fresh db name fresh]
    rfl
  exact ⟨hA, hB,
    fun f fresh hf => hEmpty _ (hA f hf) fresh,
    fun f hne fresh hf => hEmpty _ (hB f hne hf) fresh⟩

/-- Witness for `abort_before_save_leaves_store_unchanged`: the concrete
aborted Plan A run of the counterexample leaves the empty store empty. -/
theorem abort_before_save_witness :
    (test_russian_dialogue emptyOllamaCall (fun _ => 0) [] "russian_run").1 = [] :=
  (abort_before_save_leaves_store_unchanged emptyOllamaCall (fun _ => 0) [] "russian_run").1
    (VFailure.empty "ollama") (by decide)

/-! ### Claim C5 — uniqueness law for Plan B -/

/-- A list retains its length under `dedup` exactly when it has no
duplicates. -/
theorem dedup_length_eq_iff {α : Type} [DecidableEq α] (l : List α) :
    l.dedup.length = l.length ↔ l.Nodup := by
  constructor
  · intro h
    rw [← List.dedup_eq_self]
    exact (List.dedup_sublist l).eq_of_length h
  · intro h
    rw [List.dedup_eq_self.2 h]

/-- C5: when the synthesis loop produces the backend final responses, there
is one per configured backend, the run succeeds exactly when those strings
are pairwise distinct (`len(set(final_responses)) == len(models)`), and any
duplicate among them makes the run abort with the uniqueness failure. -/
theorem planB_uniqueness_law (call : String → String → Except String (Option String))
    (clock : Nat → Nat) (db : List Row) (name : String) (entries : List Entry)
    (resps : List (String × String)) (entries2 : List Entry) (finals : List String)
    (h1 : planB_aspectLoop (get_model_response call) aspectsList [seedB] [] =
      Except.ok (entries, resps))
    (h2 : planB_finalLoop (get_model_response call) (finalPrompt resps) modelsList
      entries [] = Except.ok (entries2, finals)) :
    finals.length = modelsList.length ∧
    ((test_task_solving_dialogue call clock db name).2 = none ↔ finals.Nodup) ∧
    (¬ finals.Nodup →
      (test_task_solving_dialogue call clock db name).2 = some VFailure.notUnique) := by
  obtain ⟨us, hus, -, hfs⟩ := planB_finalLoop_ok _ _ modelsList entries [] entries2 finals h2
  have hflen : finals.length = modelsList.length := by rw [hfs]; simpa using hus
  have hres : (test_task_solving_dialogue call clock db name).2 =
      if (finals.dedup.length == modelsList.length) = true then none
      else some VFailure.notUnique := by
    unfold test_task_solving_dialogue
    rw [h1]
    dsimp only
    rw [h2]
    dsimp only
    by_cases hu : (finals.dedup.length == modelsList.length) = true <;> simp [hu]
  have hiff : (finals.dedup.length == modelsList.length) = true ↔ finals.Nodup := by
    rw [beq_iff_eq, ← hflen, dedup_length_eq_iff]
  refine ⟨hflen, ?_, ?_⟩
  · rw [hres]
    constructor
    · intro h
      by_cases hu : (finals.dedup.length == modelsList.length) = true
      · exact hiff.1 hu
      · rw [if_neg hu] at h; exact absurd h (by simp)
    · intro h
      rw [if_pos (hiff.2 h)]
  · intro h
    rw [hres, if_neg (fun hu => h (hiff.1 hu))]

/-- A 20-word Russian text used as the duplicate final response. -/
def dupText : String := "и и и и и и и и и и и и и и и и и и и и"

/-- An adapter stub on which every backend returns the same valid text. -/
def dupCall : String → String → Except String (Option String) :=
  fun _ _ => Except.ok (some dupText)

/-- The concrete entry list after the aspect phase under `dupCall`. -/
def dupAspectEntries : List Entry :=
  [seedB,
   ⟨"openai", "aspect_response", dupText, some "technical aspect of the platform"⟩,
   ⟨"ollama", "aspect_response", dupText, some "pedagogical aspect of the platform"⟩,
   ⟨"gigachat", "aspect_response", dupText, some "user experience aspect"⟩]

/-- The concrete `responses` association list under `dupCall`. -/
def dupResps : List (String × String) :=
  [("openai", dupText), ("ollama", dupText), ("gigachat", dupText)]

/-- The concrete entry list after the synthesis phase under `dupCall`. -/
def dupFinalEntries : List Entry :=
  dupAspectEntries ++
  [⟨"openai", "final_response", dupText, none⟩,
   ⟨"ollama", "final_response", dupText, none⟩,
   ⟨"gigachat", "final_response", dupText, none⟩]

set_option maxRecDepth 20000 in
/-- Witness for `planB_uniqueness_law`: identical final responses abort the
run with the uniqueness failure. -/
theorem planB_uniqueness_law_witness :
    (test_task_solving_dialogue dupCall (fun _ => 0) [] "task_run").2 =
      some VFailure.notUnique :=
  (planB_uniqueness_law dupCall (fun _ => 0) [] "task_run" dupAspectEntries dupResps
      dupFinalEntries [dupText, dupText, dupText] (by decide) (by decide)).2.2 (by decide)

/-! ### Claim C6 — round-robin completeness of Plan A -/

/-- C6: a successful Plan A run under a fresh name stores exactly 10
entries — the seed and then three rounds of responses visiting the
backends in the configured order — and their sequence numbers are exactly
0..9 in order. -/
theorem planA_round_robin_completeness
    (call : String → String → Except String (Option String)) (clock : Nat → Nat)
    (db : List Row) (name : String) (fresh : ∀ r ∈ db, r.test_name ≠ name)
    (hok : (test_russian_dialogue call clock db name).2 = none) :
    (get_dialogue_from_db (test_russian_dialogue call clock db name).1 name).map
        Row.model_name =
      ["system", "openai", "ollama", "gigachat", "openai", "ollama", "gigachat",
       "openai", "ollama", "gigachat"] ∧
    (get_dialogue_from_db (test_russian_dialogue call clock db name).1 name).map
        Row.sequence_number = List.range 10 := by
  unfold test_russian_dialogue at hok ⊢
  cases hL : planA_loop (get_model_response call) planA_turnOrder [seedA] with
  | error g => rw [hL] at hok; simp at hok
  | ok entries =>
    dsimp only
    obtain ⟨rs, hlen, heq⟩ :=
      planA_loop_ok (get_model_response call) planA_turnOrder [seedA] entries hL
    have h9 : planA_turnOrder.length = 9 := rfl
    have hlen10 : entries.length = 10 := by
      rw [heq]
      simp [List.length_zip, hlen, h9]
    have hdlg := get_dialogue_save_fresh clock db name entries fresh
    constructor
    · rw [hdlg, insertRows_map_model, heq, List.map_append]
      have hmap : ((planA_turnOrder.zip rs).map
            (fun p => (⟨p.1, "response", p.2, none⟩ : Entry))).map Entry.model =
          planA_turnOrder := by
        rw [List.map_map]
        have hcomp : (Entry.model ∘ fun p : String × String =>
            (⟨p.1, "response", p.2, none⟩ : Entry)) = Prod.fst := rfl
        rw [hcomp, List.map_fst_zip _ _ (le_of_eq hlen.symm)]
      rw [hmap]
      rfl
    · rw [hdlg, insertRows_map_seq, hlen10, List.range_eq_range']

/-- An adapter stub on which every backend answers with a distinct Russian
greeting. -/
def okCall : String → String → Except String (Option String) :=
  fun ct _ => Except.ok (some ("привет " ++ ct))

set_option maxRecDepth 20000 in
/-- Witness for `planA_round_robin_completeness`: a concrete successful
Plan A run over the empty store. -/
theorem planA_round_robin_completeness_witness :
    (get_dialogue_from_db (test_russian_dialogue okCall (fun _ => 7) [] "russian_ok").1
        "russian_ok").map Row.model_name =
      ["system", "openai", "ollama", "gigachat", "openai", "ollama", "gigachat",
       "openai", "ollama", "gigachat"] ∧
    (get_dialogue_from_db (test_russian_dialogue okCall (fun _ => 7) [] "russian_ok").1
        "russian_ok").map Row.sequence_number = List.range 10 :=
  planA_round_robin_completeness okCall (fun _ => 7) [] "russian_ok" (by simp) (by decide)

/-! ### Claim C7 — sequence invariant of the store -/

/-- On every reachable store, each run's transcript query yields some
contiguous 0-based range of sequence numbers. -/
theorem reachable_seq_aux (db : List Row) (h : Reachable db) :
    ∀ name, ∃ k,
      (get_dialogue_from_db db name).map Row.sequence_number = List.range k := by
  induction h with
  | nil => exact fun name => ⟨0, rfl⟩
  | save db clock name2 es h fresh ih =>
    intro name
    by_cases heq : name = name2
    · subst heq
      refine ⟨es.length, ?_⟩
      rw [get_dialogue_save_fresh clock db name es fresh, insertRows_map_seq,
        List.range_eq_range']
    · obtain ⟨k, hk⟩ := ih name
      refine ⟨k, ?_⟩
      unfold get_dialogue_from_db save_dialogue_to_db
      rw [List.filter_append,
        insertRows_filter_other clock name2 name (Ne.symm heq) es 0, List.append_nil]
      exact hk

/-- C7: on every store the program can reach, `list(run_name)` returns
entries whose sequence numbers are exactly 0..k-1, with no gaps and no
repeats, sorted in that order. -/
theorem sequence_invariant (db : List Row) (h : Reachable db) (name : String) :
    (get_dialogue_from_db db name).map Row.sequence_number =
      List.range (get_dialogue_from_db db name).length := by
  obtain ⟨k, hk⟩ := reachable_seq_aux db h name
  have hlen : (get_dialogue_from_db db name).length = k := by
    have hl := congrArg List.length hk
    simpa using hl
  rw [hk, hlen]

/-- Witness for `sequence_invariant`: a store holding one two-entry run. -/
theorem sequence_invariant_witness :
    (get_dialogue_from_db
        (save_dialogue_to_db (fun _ => 0) [] "run_w" [topicEntry, responseEntry])
        "run_w").map Row.sequence_number =
      List.range
        (get_dialogue_from_db
          (save_dialogue_to_db (fun _ => 0) [] "run_w" [topicEntry, responseEntry])
          "run_w").length :=
  sequence_invariant _
    (Reachable.save [] (fun _ => 0) "run_w" [topicEntry, responseEntry] Reachable.nil
      (by simp)) "run_w"

/-! ### Claim C10 — Plan B persists before the uniqueness check -/

/-- Mapping a constant-valued composition over a mapped list yields a
replicated constant. -/
theorem map_map_const {α β γ : Type} (l : List α) (f : α → β) (g : β → γ) (c : γ)
    (h : ∀ a, g (f a) = c) : (l.map f).map g = List.replicate l.length c := by
  induction l with
  | nil => rfl
  | cons a l ih => simp [List.replicate_succ, h, ih]

/-- C10: when a Plan B run aborts with the uniqueness failure, the full
dialogue — the task seed, the three aspect responses and the three final
responses, duplicates included — has already been saved: the stored
transcript of the run holds all 7 entries with sequence numbers 0..6. -/
theorem planB_saves_before_uniqueness_check
    (call : String → String → Except String (Option String)) (clock : Nat → Nat)
    (db : List Row) (name : String) (fresh : ∀ r ∈ db, r.test_name ≠ name)
    (hdup : (test_task_solving_dialogue call clock db name).2 = some VFailure.notUnique) :
    (get_dialogue_from_db (test_task_solving_dialogue call clock db name).1 name).map
        Row.message_type =
      ["task", "aspect_response", "aspect_response", "aspect_response",
       "final_response", "final_response", "final_response"] ∧
    (get_dialogue_from_db (test_task_solving_dialogue call clock db name).1 name).map
        Row.sequence_number = List.range 7 := by
  unfold test_task_solving_dialogue at hdup ⊢
  cases hL : planB_aspectLoop (get_model_response call) aspectsList [seedB] [] with
  | error g =>
    rw [hL] at hdup
    dsimp only at hdup
    rw [Option.some.injEq] at hdup
    exact absurd hdup (planB_aspectLoop_error_ne _ _ _ _ _ hL)
  | ok p =>
    obtain ⟨entries, resps⟩ := p
    rw [hL] at hdup
    dsimp only at hdup ⊢
    cases hM : planB_finalLoop (get_model_response call) (finalPrompt resps)
        modelsList entries [] with
    | error g =>
      rw [hM] at hdup
      dsimp only at hdup
      rw [Option.some.injEq] at hdup
      exact absurd hdup (planB_finalLoop_error_ne _ _ _ _ _ _ hM)
    | ok q =>
      obtain ⟨entries2, finals⟩ := q
      rw [hM] at hdup
      dsimp only at hdup ⊢
      by_cases hu : (finals.dedup.length == modelsList.length) = true
      · rw [if_pos hu] at hdup; simp at hdup
      · rw [if_neg hu] at hdup ⊢
        dsimp only
        obtain ⟨ts, hts, hes, -⟩ :=
          planB_aspectLoop_ok _ aspectsList [seedB] [] entries resps hL
        obtain ⟨us, hus, hes2, -⟩ :=
          planB_finalLoop_ok _ _ modelsList entries [] entries2 finals hM
        have h3a : aspectsList.length = 3 := rfl
        have h3m : modelsList.length = 3 := rfl
        have hzipA : (aspectsList.zip ts).length = 3 := by
          rw [List.length_zip, hts, Nat.min_self, h3a]
        have hzipF : (modelsList.zip us).length = 3 := by
          rw [List.length_zip, hus, Nat.min_self, h3m]
        have hlen7 : entries2.length = 7 := by
          rw [hes2, hes]
          simp only [List.length_append, List.length_map, hzipA, hzipF]
          rfl
        have hdlg := get_dialogue_save_fresh clock db name entries2 fresh
        constructor
        · rw [hdlg, insertRows_map_type, hes2, hes, List.map_append, List.map_append,
            map_map_const _ _ _ "aspect_response" (fun a => rfl),
            map_map_const _ _ _ "final_response" (fun a => rfl), hzipA, hzipF]
          rfl
        · rw [hdlg, insertRows_map_seq, hlen7, List.range_eq_range']

set_option maxRecDepth 20000 in
/-- Witness for `planB_saves_before_uniqueness_check`: the concrete
duplicate-response Plan B run stores all 7 entries before aborting. -/
theorem planB_saves_before_uniqueness_check_witness :
    (get_dialogue_from_db (test_task_solving_dialogue dupCall (fun _ => 0) [] "task_dup").1
        "task_dup").map Row.message_type =
      ["task", "aspect_response", "aspect_response", "aspect_response",
       "final_response", "final_response", "final_response"] ∧
    (get_dialogue_from_db (test_task_solving_dialogue dupCall (fun _ => 0) [] "task_dup").1
        "task_dup").map Row.sequence_number = List.range 7 :=
  planB_saves_before_uniqueness_check dupCall (fun _ => 0) [] "task_dup" (by simp)
    (by decide)

/-! ### Claim C8 — recent-runs query -/

/-- Strict "more recent than" ordering on the (run name, timestamp) pairs. -/
def tsAfter (a b : String × Nat) : Prop := b.2 < a.2

instance : IsAntisymm (String × Nat) tsAfter :=
  ⟨fun _ _ h1 h2 => absurd (h1.trans h2) (lt_irrefl _)⟩

theorem insertByTsDesc_perm (p : String × Nat) :
    ∀ l : List (String × Nat), List.Perm (insertByTsDesc p l) (p :: l)
  | [] => List.Perm.refl _
  | q :: qs => by
    unfold insertByTsDesc
    by_cases h : q.2 ≤ p.2
    · rw [if_pos h]
    · rw [if_neg h]
      exact ((insertByTsDesc_perm p qs).cons q).trans (List.Perm.swap p q qs)

theorem sortByTsDesc_perm : ∀ l : List (String × Nat), List.Perm (sortByTsDesc l) l
  | [] => List.Perm.refl _
  | p :: ps =>
    (insertByTsDesc_perm p (sortByTsDesc ps)).trans ((sortByTsDesc_perm ps).cons p)

theorem insertByTsDesc_pairwise (p : String × Nat) :
    ∀ l : List (String × Nat), l.Pairwise (fun a b => b.2 ≤ a.2) →
      (insertByTsDesc p l).Pairwise (fun a b => b.2 ≤ a.2)
  | [], _ => by simp [insertByTsDesc]
  | q :: qs, h => by
    unfold insertByTsDesc
    rw [List.pairwise_cons] at h
    by_cases hle : q.2 ≤ p.2
    · rw [if_pos hle]
      refine List.Pairwise.cons ?_ (List.Pairwise.cons h.1 h.2)
      intro b hb
      rcases List.mem_cons.1 hb with rfl | hb
      · exact hle
      · exact le_trans (h.1 b hb) hle
    · rw [if_neg hle]
      refine List.Pairwise.cons ?_ (insertByTsDesc_pairwise p qs h.2)
      intro b hb
      have hb2 := (insertByTsDesc_perm p qs).mem_iff.1 hb
      rcases List.mem_cons.1 hb2 with rfl | hb2
      · exact le_of_not_le hle
      · exact h.1 b hb2

theorem sortByTsDesc_pairwise :
    ∀ l : List (String × Nat), (sortByTsDesc l).Pairwise (fun a b => b.2 ≤ a.2)
  | [] => List.Pairwise.nil
  | p :: ps => insertByTsDesc_pairwise p (sortByTsDesc ps) (sortByTsDesc_pairwise ps)

theorem pairsOf_append (l1 l2 : List Row) :
    pairsOf (l1 ++ l2) = pairsOf l1 ++ pairsOf l2 :=
  List.map_append _ l1 l2

theorem pairsOf_insertRows_const (ts : Nat) (name : String) :
    ∀ (es : List Entry) (n : Nat),
      pairsOf (insertRows (fun _ => ts) name n es) = List.replicate es.length (name, ts)
  | [], _ => rfl
  | e :: es, n => by
    simp only [insertRows, pairsOf, List.map_cons, List.replicate_succ]
    exact congrArg (List.cons (name, ts)) (pairsOf_insertRows_const ts name es (n + 1))

theorem runsAt_mem (db : List Row) (runs : List (String × Nat)) (h : RunsAt db runs) :
    ∀ x, x ∈ pairsOf db ↔ x ∈ runs := by
  induction h with
  | nil => simp [pairsOf]
  | save db runs name ts es h freshName hts hne ih =>
    intro x
    unfold save_dialogue_to_db
    rw [pairsOf_append, pairsOf_insertRows_const]
    simp only [List.mem_append, List.mem_replicate, ih x]
    constructor
    · rintro (hx | ⟨-, rfl⟩)
      · exact Or.inl hx
      · exact Or.inr (by simp)
    · rintro (hx | hx)
      · exact Or.inl hx
      · refine Or.inr ⟨fun h0 => hne (List.length_eq_zero.1 h0), by simpa using hx⟩

theorem runsAt_increasing (db : List Row) (runs : List (String × Nat))
    (h : RunsAt db runs) : runs.Pairwise (fun p q => p.2 < q.2) := by
  induction h with
  | nil => exact List.Pairwise.nil
  | save db runs name ts es h freshName hts hne ih =>
    rw [List.pairwise_append]
    refine ⟨ih, List.pairwise_singleton _ _, fun p hp q hq => ?_⟩
    rw [List.mem_singleton] at hq
    rw [hq]
    exact hts p hp

theorem runsAt_names (db : List Row) (runs : List (String × Nat)) (h : RunsAt db runs) :
    runs.Pairwise (fun p q => p.1 ≠ q.1) := by
  induction h with
  | nil => exact List.Pairwise.nil
  | save db runs name ts es h freshName hts hne ih =>
    rw [List.pairwise_append]
    refine ⟨ih, List.pairwise_singleton _ _, fun p hp q hq => ?_⟩
    rw [List.mem_singleton] at hq
    rw [hq]
    exact freshName p hp

theorem runsAt_sorted_eq (db : List Row) (runs : List (String × Nat))
    (h : RunsAt db runs) : sortByTsDesc (pairsOf db).dedup = runs.reverse := by
  induction h with
  | nil => rfl
  | save db runs name ts es h freshName hts hne ih =>
    have hinc := runsAt_increasing db runs h
    have hmemL : ∀ x,
        x ∈ (pairsOf (save_dialogue_to_db (fun _ => ts) db name es)).dedup ↔
          x ∈ runs ∨ x = (name, ts) := by
      intro x
      rw [List.mem_dedup,
        runsAt_mem _ _ (RunsAt.save db runs name ts es h freshName hts hne) x]
      simp
    have hRHSsorted : ((name, ts) :: runs.reverse).Pairwise tsAfter := by
      refine List.Pairwise.cons ?_ ?_
      · intro q hq
        rw [List.mem_reverse] at hq
        exact hts q hq
      · rw [List.pairwise_reverse]
        exact hinc.imp (fun hab => hab)
    have hRHSnodup : ((name, ts) :: runs.reverse).Nodup :=
      hRHSsorted.imp (fun hab he => absurd hab (by rw [he]; exact lt_irrefl _))
    have hLnodup := List.nodup_dedup (pairsOf (save_dialogue_to_db (fun _ => ts) db name es))
    have hperm : List.Perm
        (pairsOf (save_dialogue_to_db (fun _ => ts) db name es)).dedup
        ((name, ts) :: runs.reverse) := by
      refine (List.perm_ext_iff_of_nodup hLnodup hRHSnodup).2 (fun x => ?_)
      rw [hmemL x, List.mem_cons, List.mem_reverse]
      exact Or.comm
    have hsortPerm : List.Perm
        (sortByTsDesc (pairsOf (save_dialogue_to_db (fun _ => ts) db name es)).dedup)
        ((name, ts) :: runs.reverse) :=
      (sortByTsDesc_perm _).trans hperm
    have hsndR : ((name, ts) :: runs.reverse).Pairwise (fun a b => a.2 ≠ b.2) :=
      hRHSsorted.imp (fun hab => ne_of_gt hab)
    have hsndL : ((sortByTsDesc
        (pairsOf (save_dialogue_to_db (fun _ => ts) db name es)).dedup).map
          Prod.snd).Nodup :=
      ((hsortPerm.map Prod.snd).nodup_iff).2 (List.pairwise_map.2 hsndR)
    have hsndLpair := List.pairwise_map.1 hsndL
    have hLsorted : (sortByTsDesc
        (pairsOf (save_dialogue_to_db (fun _ => ts) db name es)).dedup).Pairwise tsAfter :=
      ((sortByTsDesc_pairwise _).and hsndLpair).imp
        (fun hab => lt_of_le_of_ne hab.1 (Ne.symm hab.2))
    have heq := List.eq_of_perm_of_sorted hsortPerm hLsorted hRHSsorted
    rw [heq, List.reverse_append]
    rfl

/-- C8 (amended): on every store built from runs saved under fresh names at
strictly increasing timestamps, with each run's rows sharing one timestamp,
`recent_runs 5` returns the (run name, creation time) pairs most recent
first, truncated to 5, with distinct run names — even after more runs are
added. (As shown by the counterexample, the distinct-names conclusion needs
each run's entries to be inserted at a single timestamp, since the query is
distinct over (name, timestamp) pairs.) -/
theorem recent_runs_ordering (db : List Row) (runs : List (String × Nat))
    (h : RunsAt db runs) :
    recent_runs db 5 = (runs.reverse).take 5 ∧
    ((recent_runs db 5).map Prod.fst).Nodup := by
  have heq : recent_runs db 5 = (runs.reverse).take 5 := by
    unfold recent_runs
    rw [runsAt_sorted_eq db runs h]
  refine ⟨heq, ?_⟩
  rw [heq]
  have hnames : runs.reverse.Pairwise (fun p q => p.1 ≠ q.1) := by
    rw [List.pairwise_reverse]
    exact (runsAt_names db runs h).imp (fun hab => Ne.symm hab)
  have hnodup : ((runs.reverse).map Prod.fst).Nodup := List.pairwise_map.2 hnames
  have hsub : ((runs.reverse.take 5).map Prod.fst).Sublist ((runs.reverse).map Prod.fst) :=
    (List.take_sublist _ _).map _
  exact List.Nodup.sublist hsub hnodup

/-- Witness for `recent_runs_ordering`: two runs saved at timestamps 0 and
1 are listed most recent first. -/
theorem recent_runs_ordering_witness :
    recent_runs (save_dialogue_to_db (fun _ => 1)
        (save_dialogue_to_db (fun _ => 0) [] "run_a" [topicEntry]) "run_b"
        [responseEntry]) 5 =
      ([("run_a", 0), ("run_b", 1)].reverse).take 5 :=
  (recent_runs_ordering _ [("run_a", 0), ("run_b", 1)]
      (RunsAt.save _ [("run_a", 0)] "run_b" 1 [responseEntry]
        (RunsAt.save [] [] "run_a" 0 [topicEntry] RunsAt.nil (by simp) (by simp)
          (by simp))
        (by simp) (by simp) (by simp))).1

/-- C8 counterexample: when the two entries of run "run_a" are inserted at
timestamps 0 and 1 (and "run_b" at 2), the `SELECT DISTINCT test_name,
timestamp` query returns "run_a" twice — the claim's "distinct run names
only, even when entries of the same run were inserted at different times"
fails on the code. -/
theorem recent_runs_duplicate_name_cex :
    (recent_runs (save_dialogue_to_db (fun _ => 2)
        (save_dialogue_to_db (fun n => n) [] "run_a" [topicEntry, responseEntry])
        "run_b" [topicEntry]) 5).map Prod.fst = ["run_b", "run_a", "run_a"] ∧
    ¬ ((recent_runs (save_dialogue_to_db (fun _ => 2)
        (save_dialogue_to_db (fun n => n) [] "run_a" [topicEntry, responseEntry])
        "run_b" [topicEntry]) 5).map Prod.fst).Nodup := by
  decide
